import Mathlib

/-!
Shallow embedding of the tweet scheduler in `src/schedule-send.ts`
(session/cookie cache manager, sequential dispatch loop, argument parsing,
MIME lookup).  Machine time (`Date.now()`) is passed explicitly as an `Int`
of epoch milliseconds; file I/O outcomes are passed explicitly as values of
small inductive types; the remote client (`Scraper`) is modelled by the
trace of calls made to it.
-/

namespace TweetTest

/-- Mirrors `type StoredCookies = { cookies: string[], timestamp: number }`. -/
structure StoredCookies where
  cookies : List String
  timestamp : Int
deriving DecidableEq, Repr

/-- Mirrors `type TweetConfig = { content: string, mediaPaths?: string[] }`. -/
structure TweetConfig where
  content : String
  mediaPaths : Option (List String)
deriving DecidableEq, Repr

/-- Mirrors `type ScheduleOptions = { delayMinutes: number, tweetCount: number }`. -/
structure ScheduleOptions where
  delayMinutes : Int
  tweetCount : Int
deriving DecidableEq, Repr

/-- Source constant `MIN_DELAY_MINUTES = 2` (line 23). -/
def MIN_DELAY_MINUTES : Int := 2

/-- Result of a JS object bracket lookup, as this program observes it: an
own entry of the literal is a string; a key that names an inherited member
of `Object.prototype` yields that member, a truthy non-string function (or,
for `__proto__`, an object); every other key yields `undefined`. -/
inductive JsValue where
  | undefined
  | str (s : String)
  | inheritedObject (name : String)
deriving DecidableEq, Repr

/-- JS truthiness of a lookup result: `undefined` is falsy, a string is
falsy exactly when empty, an inherited function or object is truthy. -/
def JsValue.isTruthy : JsValue → Bool
  | .undefined => false
  | .str s => !s.isEmpty
  | .inheritedObject _ => true

/-- Property names every plain object literal inherits from
`Object.prototype`; a bracket lookup with one of these keys returns the
inherited member instead of `undefined`. -/
def objectPrototypeKeys : List String :=
  ["constructor", "hasOwnProperty", "isPrototypeOf", "propertyIsEnumerable",
    "toLocaleString", "toString", "valueOf", "__proto__", "__defineGetter__",
    "__defineSetter__", "__lookupGetter__", "__lookupSetter__"]

/-- Mirrors `MediaData` (`{ data: ArrayBuffer, mediaType: string }`); the raw
bytes are external file I/O and are abstracted by the path they were read
from, and the media type holds whatever the lookup produced (the TS `string`
annotation is erased at runtime, so an inherited non-string value flows
through unchecked). -/
structure MediaData where
  srcPath : String
  mediaType : JsValue
deriving DecidableEq, Repr

/-- The bracket lookup `mimeTypes[extension]` on the object literal inside
`getMimeType` (lines 32-38).  A JS bracket lookup consults the prototype
chain, so besides the five own entries, a key naming an `Object.prototype`
member resolves to that truthy inherited value; every other key yields
`undefined`. -/
def mimeTypes (extension : String) : JsValue :=
  if extension = "jpg" then .str "image/jpeg"
  else if extension = "jpeg" then .str "image/jpeg"
  else if extension = "png" then .str "image/png"
  else if extension = "gif" then .str "image/gif"
  else if extension = "mp4" then .str "video/mp4"
  else if extension ∈ objectPrototypeKeys then .inheritedObject extension
  else .undefined

/-- Source function `getMimeType(extension)` (lines 31-40).
`extension ? mimeTypes[extension] : undefined`: the empty string is falsy in
JS, so it short-circuits to `undefined` without reaching the lookup. -/
def getMimeType (extension : Option String) : JsValue :=
  match extension with
  | none => .undefined
  | some e => if e = "" then .undefined else mimeTypes e

/-- JS string `split` on a dot, on the underlying character list:
segments between the dots, in order; `[[]]` on the empty string, one
segment when there is no dot. -/
def splitDot : List Char → List (List Char)
  | [] => [[]]
  | c :: rest =>
    let r := splitDot rest
    if c = '.' then [] :: r
    else (c :: r.headD []) :: r.tail

/-- JS `String.prototype.toLowerCase()` on the ASCII strings this program
feeds it (file extensions): lowercase every character. -/
def strToLower (s : String) : String :=
  ⟨s.data.map Char.toLower⟩

/-- The expression `path.split(".").pop()?.toLowerCase()` (line 125,
with the dot argument written here in double quotes): the substring after
the last dot (the whole path when there is no dot), lowercased.  `splitDot`
never returns `[]`, matching `pop` on `split`, which always finds at least
one element. -/
def extensionOf (path : String) : String :=
  strToLower ⟨(splitDot path.data).getLastD []⟩

/-- One observable action issued to the remote client or the timer by the
dispatch loop: a `setTimeout` wait of `ms` milliseconds, or a
`scraper.sendTweet(content, undefined, media)` call. -/
inductive Event where
  | wait (ms : Int)
  | publish (content : String) (media : List MediaData)
deriving DecidableEq, Repr

/-- The `mediaPaths.map(...)` body inside `sendTweet` (lines 124-136): for
each path, look up the extension; `if (!mimeType) throw` fails on a falsy
lookup with the `Unsupported media type` error on the first such path,
while any truthy lookup — an own MIME string or an inherited
`Object.prototype` value — is kept as the media type. -/
def resolveMedia : List String → Except String (List MediaData)
  | [] => .ok []
  | path :: rest =>
    let mimeType := getMimeType (some (extensionOf path))
    if mimeType.isTruthy then
      match resolveMedia rest with
      | .error e => .error e
      | .ok tail => .ok (⟨path, mimeType⟩ :: tail)
    else .error ("Unsupported media type for file: " ++ path)

/-- Source method `sendTweet(content, mediaPaths)` (lines 120-147):
resolve all media
first (an unresolvable attachment throws before the publish call), then
issue the single `scraper.sendTweet` call. -/
def sendTweet (content : String) (mediaPaths : List String) :
    Except String Event :=
  match resolveMedia mediaPaths with
  | .error e => .error e
  | .ok mediaData => .ok (.publish content mediaData)

/-- The computation `Math.max(options.delayMinutes, MIN_DELAY_MINUTES)`
followed by
`delayMinutes * 60 * 1000` (lines 152-153). -/
def effectiveDelayMs (delayMinutes : Int) : Int :=
  max delayMinutes MIN_DELAY_MINUTES * 60 * 1000

/-- The expression
`options.tweetCount > 0 ? tweets.slice(0, options.tweetCount) : tweets`
(line 156). -/
def tweetsToSend (tweets : List TweetConfig) (tweetCount : Int) :
    List TweetConfig :=
  if tweetCount > 0 then tweets.take tweetCount.toNat else tweets

/-- The `for` loop of `sendConfiguredTweets` (lines 162-178): at index
`i > 0` wait `delayMs` first, then publish via `sendTweet` with
`tweet.mediaPaths || []`; a thrown error aborts the remaining iterations.
Returns the trace of events that occurred and the error, if any. -/
def sendLoop (delayMs : Int) : List TweetConfig → Nat → List Event × Option String
  | [], _ => ([], none)
  | tweet :: rest, i =>
    let pre : List Event := if i = 0 then [] else [.wait delayMs]
    match sendTweet tweet.content (tweet.mediaPaths.getD []) with
    | .error e => (pre, some e)
    | .ok ev =>
      let next := sendLoop delayMs rest (i + 1)
      (pre ++ ev :: next.1, next.2)

/-- Source method `sendConfiguredTweets` (lines 149-185) after the config
has been loaded:
clamp the delay, truncate the list, run the loop from index 0. -/
def sendConfiguredTweets (tweets : List TweetConfig) (options : ScheduleOptions) :
    List Event × Option String :=
  sendLoop (effectiveDelayMs options.delayMinutes)
    (tweetsToSend tweets options.tweetCount) 0

/-- The contents passed to the publish calls of a trace, in order. -/
def publishedContents (trace : List Event) : List String :=
  trace.filterMap fun e =>
    match e with
    | .publish c _ => some c
    | .wait _ => none

/-- Resolution of every tweet of a list: its content paired with its
resolved media, or the first error.  Captures what a fully successful pass
of the loop publishes. -/
def resolveAll : List TweetConfig → Except String (List (String × List MediaData))
  | [] => .ok []
  | tweet :: rest =>
    match resolveMedia (tweet.mediaPaths.getD []) with
    | .error e => .error e
    | .ok md =>
      match resolveAll rest with
      | .error e => .error e
      | .ok tail => .ok ((tweet.content, md) :: tail)

/-- The event trace of an error-free run over resolved tweets: no wait
before the first publish (when `first` is true), a single wait of `delayMs`
before every later publish. -/
def traceFrom (delayMs : Int) : Bool → List (String × List MediaData) → List Event
  | _, [] => []
  | first, p :: rest =>
    (if first then ([] : List Event) else [.wait delayMs]) ++
      .publish p.1 p.2 :: traceFrom delayMs false rest

/-! Session manager (cookie cache) -/

/-- Field `cookieExpirationMs` for the default `cookieExpirationHours = 24`
(lines 25-28): `24 * 60 * 60 * 1000`. -/
def defaultCookieExpirationMs : Int := 24 * 60 * 60 * 1000

/-- Source method `areCookiesValid(stored)` (lines 57-59):
`Date.now() - stored.timestamp < this.cookieExpirationMs`, with the current
time and the configured expiration passed explicitly. -/
def areCookiesValid (now cookieExpirationMs : Int) (stored : StoredCookies) :
    Bool :=
  decide (now - stored.timestamp < cookieExpirationMs)

/-- The possible states of the cookie cache file as seen by `loadCookies`:
absent, present but unreadable, present but with content `JSON.parse`
rejects, or present with a record that parses. -/
inductive CookieFileState where
  | missing
  | unreadable
  | corrupt (raw : String)
  | valid (record : StoredCookies)
deriving DecidableEq, Repr

/-- Source method `loadCookies()` (lines 42-50): read then parse inside
`try`; every
failure is caught and becomes `null`. -/
def loadCookies : CookieFileState → Option StoredCookies
  | .missing => none
  | .unreadable => none
  | .corrupt _ => none
  | .valid record => some record

/-- Source method `saveCookies(cookies)` (lines 52-55): build
`{ cookies, timestamp: Date.now() }` and `Bun.write` it, overwriting
whatever the file held before.  Returns the record written and the new file
state. -/
def saveCookies (cookies : List String) (now : Int)
    (prev : CookieFileState) : StoredCookies × CookieFileState :=
  let cookieData : StoredCookies := ⟨cookies, now⟩
  (cookieData, .valid cookieData)

/-- What a `login()` call did: whether `scraper.setCookies` was attempted
with the cached record, whether `scraper.login` (credential login) ran,
whether a fresh record was saved, and whether the call succeeded. -/
structure LoginTrace where
  attemptedApply : Bool
  credentialLogin : Bool
  savedNewCookies : Bool
  succeeded : Bool
deriving DecidableEq, Repr

/-- The credential branch of `login()` (lines 108-117): `scraper.login`
then `saveCookies`; a login failure is rethrown. -/
def credentialLoginStep (credOk : Bool) (attempted : Bool) : LoginTrace :=
  if credOk then ⟨attempted, true, true, true⟩
  else ⟨attempted, true, false, false⟩

/-- Source method `login()` (lines 84-118).  Here `stored` is the result
of `loadCookies`;
`applyOk` is whether `scraper.setCookies` accepts the cached cookies;
`credOk` is whether `scraper.login` succeeds. -/
def login (stored : Option StoredCookies) (now cookieExpirationMs : Int)
    (applyOk credOk : Bool) : LoginTrace :=
  match stored with
  | some sc =>
    if areCookiesValid now cookieExpirationMs sc then
      if applyOk then ⟨true, false, false, true⟩
      else credentialLoginStep credOk true
    else credentialLoginStep credOk false
  | none => credentialLoginStep credOk false

/-! Argument parsing -/

/-- The longest digit prefix of a character list, as a number; `none` when
there is no leading digit (JS `parseInt` returning `NaN`). -/
def leadingDigits (cs : List Char) : Option Nat :=
  let ds := cs.takeWhile Char.isDigit
  if ds.isEmpty then none
  else some (ds.foldl (fun n c => n * 10 + (c.toNat - 48)) 0)

/-- The white space JS `parseInt` strips from the front: the ECMAScript
WhiteSpace and LineTerminator classes (tab, line feed, vertical tab, form
feed, carriage return, space, no-break space, the Unicode space
separators, the line and paragraph separators, and the zero-width
no-break space). -/
def jsWhitespace (c : Char) : Bool :=
  [9, 10, 11, 12, 13, 32, 160, 5760, 8232, 8233, 8239, 8287, 12288,
    65279].contains c.toNat || (8192 ≤ c.toNat && c.toNat ≤ 8202)

/-- One hexadecimal digit. -/
def isHexDigit (c : Char) : Bool :=
  c.isDigit || ('a' ≤ c && c ≤ 'f') || ('A' ≤ c && c ≤ 'F')

/-- Numeric value of a hexadecimal digit. -/
def hexVal (c : Char) : Nat :=
  if c.isDigit then c.toNat - 48
  else if 'a' ≤ c && c ≤ 'f' then c.toNat - 87
  else c.toNat - 55

/-- The longest hexadecimal-digit prefix of a character list, as a number;
`none` when there is no leading hexadecimal digit. -/
def leadingHexDigits (cs : List Char) : Option Nat :=
  let ds := cs.takeWhile isHexDigit
  if ds.isEmpty then none
  else some (ds.foldl (fun n c => n * 16 + hexVal c) 0)

/-- The digit parsing of JS `parseInt` after sign handling: with no radix
argument, a `0x` or `0X` prefix switches to base 16, otherwise the longest
decimal-digit prefix is taken; no digits at all means `NaN`. -/
def jsParseIntBody (cs : List Char) : Option Nat :=
  match cs with
  | '0' :: 'x' :: rest => leadingHexDigits rest
  | '0' :: 'X' :: rest => leadingHexDigits rest
  | _ => leadingDigits cs

/-- JS `parseInt(s)` with no radix argument: strip leading JS white space,
read an optional sign, then parse a `0x`-prefixed hexadecimal or plain
decimal digit prefix; `none` models `NaN`.  JS numbers lose precision
above 2^53, which is abstracted here by exact integers; that cannot change
whether the result is at least 1. -/
def jsParseInt (s : String) : Option Int :=
  match s.data.dropWhile jsWhitespace with
  | '-' :: rest => (jsParseIntBody rest).map fun n => -(n : Int)
  | '+' :: rest => (jsParseIntBody rest).map fun n => (n : Int)
  | cs => (jsParseIntBody cs).map fun n => (n : Int)

/-- Source function `parseTimeString(timeStr)` (lines 11-17): the anchored
case-insensitive
regex `(\d+)(min|minutes|m)?` requires a nonempty digit prefix followed by
one of the optional unit suffixes; the digits (group 1) are returned via
`parseInt`.  Since the suffixes contain no digit, greedy `\d+` matches
exactly the maximal digit prefix. -/
def parseTimeString (timeStr : String) : Except String Int :=
  let ds := timeStr.data.takeWhile Char.isDigit
  let suffix : String := ⟨timeStr.data.dropWhile Char.isDigit⟩
  if ds.isEmpty then
    .error "Invalid time format. Use format: \"5min\" or just \"5\""
  else if ["", "min", "minutes", "m"].contains (strToLower suffix) then
    .ok ((ds.foldl (fun n c => n * 10 + (c.toNat - 48)) 0 : Nat) : Int)
  else
    .error "Invalid time format. Use format: \"5min\" or just \"5\""

/-- The `for` loop of `parseArgs` (lines 193-205), carrying the current
`delayMinutes` and `tweetCount`.  A flag in last position (no following
value) falls through, exactly like `i + 1 < args.length` failing. -/
def parseArgsLoop : List String → Int → Int → Except String ScheduleOptions
  | [], delayMinutes, tweetCount => .ok ⟨delayMinutes, tweetCount⟩
  | [_], delayMinutes, tweetCount => .ok ⟨delayMinutes, tweetCount⟩
  | a :: b :: rest, delayMinutes, tweetCount =>
    if a = "--delay" then
      match parseTimeString b with
      | .error e => .error e
      | .ok d => parseArgsLoop rest d tweetCount
    else if a = "--count" then
      match jsParseInt b with
      | none => .error "Count must be a positive number"
      | some k =>
        if k < 1 then .error "Count must be a positive number"
        else parseArgsLoop rest delayMinutes k
    else parseArgsLoop (b :: rest) delayMinutes tweetCount

/-- Source function `parseArgs()` (lines 188-208): defaults are a
2-minute delay and
`tweetCount = 0` (send all). -/
def parseArgs (args : List String) : Except String ScheduleOptions :=
  parseArgsLoop args 2 0

/-! Entry routine -/

/-- One top-level step of `main()` (lines 210-222). -/
inductive MainEvent where
  | argsParsed (opts : ScheduleOptions)
  | authenticated (lt : LoginTrace)
  | dispatchEvent (e : Event)
deriving DecidableEq, Repr

/-- Source function `main()` (lines 210-222): parse the arguments, then
`login()`, then
`sendConfiguredTweets`; any thrown error stops the sequence and is
reported. -/
def mainModel (args : List String) (st : CookieFileState)
    (now cookieExpirationMs : Int) (applyOk credOk : Bool)
    (tweets : List TweetConfig) : List MainEvent × Option String :=
  match parseArgs args with
  | .error e => ([], some e)
  | .ok opts =>
    let lt := login (loadCookies st) now cookieExpirationMs applyOk credOk
    if lt.succeeded then
      let run := sendConfiguredTweets tweets opts
      (.argsParsed opts :: .authenticated lt :: run.1.map .dispatchEvent,
        run.2)
    else
      ([.argsParsed opts, .authenticated lt], some "Login failed")

/-! Helper lemmas about the dispatch loop -/

lemma publishedContents_nil : publishedContents [] = [] := rfl

lemma publishedContents_cons_wait (ms : Int) (tr : List Event) :
    publishedContents (.wait ms :: tr) = publishedContents tr := rfl

lemma publishedContents_cons_publish (c : String) (m : List MediaData)
    (tr : List Event) :
    publishedContents (.publish c m :: tr) = c :: publishedContents tr := rfl

lemma publishedContents_append (a b : List Event) :
    publishedContents (a ++ b) = publishedContents a ++ publishedContents b :=
  List.filterMap_append a b _

/-- Every event of the pre-publish segment of an iteration is the wait of
the configured delay. -/
lemma mem_pre_wait {delayMs : Int} {i : Nat} {e : Event}
    (h : e ∈ (if i = 0 then ([] : List Event) else [.wait delayMs])) :
    e = .wait delayMs := by
  split at h
  · simp at h
  · simpa using h

/-- A successful `sendTweet` publishes exactly the given content with its
resolved media. -/
lemma sendTweet_ok {content : String} {mediaPaths : List String} {ev : Event}
    (h : sendTweet content mediaPaths = .ok ev) :
    ∃ md, resolveMedia mediaPaths = .ok md ∧ ev = .publish content md := by
  unfold sendTweet at h
  rcases hmd : resolveMedia mediaPaths with e | md <;> rw [hmd] at h
  · cases h
  · exact ⟨md, rfl, by cases h; rfl⟩

/-- Every wait event the loop emits has the configured delay. -/
lemma wait_eq_of_mem_sendLoop {delayMs : Int} :
    ∀ (ts : List TweetConfig) (i : Nat) {ms : Int},
      Event.wait ms ∈ (sendLoop delayMs ts i).1 → ms = delayMs := by
  intro ts
  induction ts with
  | nil => intro i ms h; simp [sendLoop] at h
  | cons t rest ih =>
    intro i ms h
    simp only [sendLoop] at h
    rcases hst : sendTweet t.content (t.mediaPaths.getD []) with e | ev <;>
      rw [hst] at h
    · have := mem_pre_wait h
      injection this
    · rcases List.mem_append.mp h with h1 | h2
      · have := mem_pre_wait h1
        injection this
      · rcases List.mem_cons.mp h2 with h3 | h4
        · rcases sendTweet_ok hst with ⟨md, _, hev⟩
          subst hev
          cases h3
        · exact ih (i + 1) h4

/-- Every publish event the loop emits carries the content of a member of
the dispatched list. -/
lemma exists_tweet_of_publish_mem {delayMs : Int} :
    ∀ (ts : List TweetConfig) (i : Nat) {c : String} {m : List MediaData},
      Event.publish c m ∈ (sendLoop delayMs ts i).1 →
      ∃ t ∈ ts, t.content = c := by
  intro ts
  induction ts with
  | nil => intro i c m h; simp [sendLoop] at h
  | cons t rest ih =>
    intro i c m h
    simp only [sendLoop] at h
    rcases hst : sendTweet t.content (t.mediaPaths.getD []) with e | ev <;>
      rw [hst] at h
    · have := mem_pre_wait h
      cases this
    · rcases List.mem_append.mp h with h1 | h2
      · have := mem_pre_wait h1
        cases this
      · rcases List.mem_cons.mp h2 with h3 | h4
        · rcases sendTweet_ok hst with ⟨md, _, hev⟩
          subst hev
          cases h3
          exact ⟨t, List.mem_cons_self t rest, rfl⟩
        · rcases ih (i + 1) h4 with ⟨u, hu, huc⟩
          exact ⟨u, List.mem_cons_of_mem t hu, huc⟩

/-- When every tweet of the list resolves, the loop runs to completion and
its trace is the alternating publish/wait trace of the resolved list. -/
lemma sendLoop_of_resolveAll_ok {delayMs : Int} :
    ∀ (ts : List TweetConfig) (i : Nat) {ps : List (String × List MediaData)},
      resolveAll ts = .ok ps →
      sendLoop delayMs ts i = (traceFrom delayMs (i == 0) ps, none) := by
  intro ts
  induction ts with
  | nil =>
    intro i ps h
    simp only [resolveAll] at h
    cases h
    simp [sendLoop, traceFrom]
  | cons t rest ih =>
    intro i ps h
    simp only [resolveAll] at h
    rcases hmd : resolveMedia (t.mediaPaths.getD []) with e | md <;>
      rw [hmd] at h
    · cases h
    · rcases hra : resolveAll rest with e | tail <;> rw [hra] at h
      · cases h
      · cases h
        simp only [sendLoop, sendTweet, hmd]
        rw [ih (i + 1) hra]
        cases i <;> simp [traceFrom]

/-- The publish contents of a fully successful trace are the resolved
contents, in order. -/
lemma publishedContents_traceFrom (delayMs : Int) :
    ∀ (ps : List (String × List MediaData)) (b : Bool),
      publishedContents (traceFrom delayMs b ps) = ps.map Prod.fst := by
  intro ps
  induction ps with
  | nil => intro b; simp [traceFrom, publishedContents]
  | cons p rest ih =>
    intro b
    cases b <;>
      simp [traceFrom, publishedContents_append, publishedContents_cons_wait,
        publishedContents_cons_publish, ih false]

/-- When a prefix resolves and the media of the next tweet does not, the loop
publishes exactly the prefix, then stops with that error. -/
lemma sendLoop_stops_at_error {delayMs : Int} {e : String} :
    ∀ (pre : List TweetConfig) (badT : TweetConfig) (rest : List TweetConfig)
      (i : Nat) {ps : List (String × List MediaData)},
      resolveAll pre = .ok ps →
      resolveMedia (badT.mediaPaths.getD []) = .error e →
      (sendLoop delayMs (pre ++ badT :: rest) i).2 = some e ∧
      publishedContents (sendLoop delayMs (pre ++ badT :: rest) i).1 =
        ps.map Prod.fst := by
  intro pre
  induction pre with
  | nil =>
    intro badT rest i ps hps hbad
    simp only [resolveAll] at hps
    cases hps
    simp only [List.nil_append, sendLoop, sendTweet, hbad]
    refine ⟨by simp, ?_⟩
    cases i <;>
      simp [publishedContents_nil, publishedContents_cons_wait]
  | cons t pre' ih =>
    intro badT rest i ps hps hbad
    simp only [resolveAll] at hps
    rcases hmd : resolveMedia (t.mediaPaths.getD []) with e' | md <;>
      rw [hmd] at hps
    · cases hps
    · rcases hra : resolveAll pre' with e' | tail <;> rw [hra] at hps
      · cases hps
      · cases hps
        simp only [List.cons_append, sendLoop, sendTweet, hmd]
        have h2 := ih badT rest (i + 1) hra hbad
        refine ⟨h2.1, ?_⟩
        cases i <;>
          simp [publishedContents_append, publishedContents_cons_wait,
            publishedContents_cons_publish, h2.2]

/-- Resolution preserves the number of tweets. -/
lemma resolveAll_length :
    ∀ {ts : List TweetConfig} {ps : List (String × List MediaData)},
      resolveAll ts = .ok ps → ps.length = ts.length := by
  intro ts
  induction ts with
  | nil => intro ps h; cases h; rfl
  | cons t rest ih =>
    intro ps h
    simp only [resolveAll] at h
    rcases hmd : resolveMedia (t.mediaPaths.getD []) with e | md <;>
      rw [hmd] at h
    · cases h
    · rcases hra : resolveAll rest with e | tail <;> rw [hra] at h
      · cases h
      · cases h
        simp [ih hra]

/-! Claims -/

/-- C1: the effective inter-post delay used by the dispatch loop is
max(delayMinutes, 2) minutes converted to milliseconds: every wait event of
a run lasts exactly max(delayMinutes, 2) * 60000 ms, a requested delay
below 2 is clamped to exactly 2 minutes, and a delay of at least 2 minutes
is used as requested. -/
theorem effective_delay_is_clamped_max (tweets : List TweetConfig)
    (opts : ScheduleOptions) (ms : Int) :
    (Event.wait ms ∈ (sendConfiguredTweets tweets opts).1 →
      ms = max opts.delayMinutes 2 * 60000) ∧
    (opts.delayMinutes < 2 → effectiveDelayMs opts.delayMinutes = 2 * 60000) ∧
    (2 ≤ opts.delayMinutes →
      effectiveDelayMs opts.delayMinutes = opts.delayMinutes * 60000) := by
  refine ⟨?_, ?_, ?_⟩
  · intro h
    simp only [sendConfiguredTweets] at h
    have hw := wait_eq_of_mem_sendLoop (tweetsToSend tweets opts.tweetCount) 0 h
    rw [hw]
    simp only [effectiveDelayMs, MIN_DELAY_MINUTES]
    rw [mul_assoc]
    norm_num
  · intro h
    simp only [effectiveDelayMs, MIN_DELAY_MINUTES]
    rw [max_eq_right h.le]
    norm_num
  · intro h
    simp only [effectiveDelayMs, MIN_DELAY_MINUTES]
    rw [max_eq_left h, mul_assoc]
    norm_num

theorem effective_delay_is_clamped_max_witness :
    (120000 : Int) = max (0 : Int) 2 * 60000 ∧
    effectiveDelayMs 1 = 2 * 60000 ∧
    effectiveDelayMs 7 = 7 * 60000 := by
  refine ⟨?_, ?_, ?_⟩
  · exact (effective_delay_is_clamped_max [⟨"A", none⟩, ⟨"B", none⟩] ⟨0, 0⟩
      120000).1 (by decide)
  · exact (effective_delay_is_clamped_max [] ⟨1, 0⟩ 0).2.1 (by decide)
  · exact (effective_delay_is_clamped_max [] ⟨7, 0⟩ 0).2.2 (by decide)

/-- C2: with count 0 the working set is the whole post list in order, with
count k > 0 it is the first k items in order, and every publish call of a
run carries the content of a member of the working set, so items beyond the
truncation point are never passed to the publish operation. -/
theorem working_set_truncation (tweets : List TweetConfig) (k : Int)
    (opts : ScheduleOptions) (c : String) (m : List MediaData) :
    tweetsToSend tweets 0 = tweets ∧
    (0 < k → tweetsToSend tweets k = tweets.take k.toNat) ∧
    (Event.publish c m ∈ (sendConfiguredTweets tweets opts).1 →
      ∃ t ∈ tweetsToSend tweets opts.tweetCount, t.content = c) := by
  refine ⟨by simp [tweetsToSend], ?_, ?_⟩
  · intro hk
    simp [tweetsToSend, hk]
  · intro h
    simp only [sendConfiguredTweets] at h
    exact exists_tweet_of_publish_mem _ 0 h

theorem working_set_truncation_witness :
    tweetsToSend [⟨"A", none⟩, ⟨"B", none⟩, ⟨"C", none⟩] 2 =
      [⟨"A", none⟩, ⟨"B", none⟩] ∧
    ∃ t ∈ tweetsToSend [⟨"A", none⟩, ⟨"B", none⟩, ⟨"C", none⟩] 2,
      t.content = "A" := by
  constructor
  · exact ((working_set_truncation [⟨"A", none⟩, ⟨"B", none⟩, ⟨"C", none⟩] 2
      ⟨2, 2⟩ "A" []).2.1 (by decide)).trans (by decide)
  · exact (working_set_truncation [⟨"A", none⟩, ⟨"B", none⟩, ⟨"C", none⟩] 2
      ⟨2, 2⟩ "A" []).2.2 (by decide)

/-- C3: posts are published one at a time in the exact order of the
truncated working set: when every tweet of the working set resolves, the
run trace is the first publish with no preceding wait, then for each later
post one timed wait of the effective delay followed by its publish, with no
error; truncated posts never appear. -/
theorem dispatch_order_strict (tweets : List TweetConfig)
    (opts : ScheduleOptions) (ps : List (String × List MediaData))
    (h : resolveAll (tweetsToSend tweets opts.tweetCount) = .ok ps) :
    sendConfiguredTweets tweets opts =
      (traceFrom (effectiveDelayMs opts.delayMinutes) true ps, none) := by
  simp only [sendConfiguredTweets]
  exact sendLoop_of_resolveAll_ok _ 0 h

theorem dispatch_order_strict_witness :
    sendConfiguredTweets [⟨"A", none⟩, ⟨"B", none⟩, ⟨"C", none⟩] ⟨2, 2⟩ =
      ([.publish "A" [], .wait 120000, .publish "B" []], none) := by
  have h := dispatch_order_strict [⟨"A", none⟩, ⟨"B", none⟩, ⟨"C", none⟩]
    ⟨2, 2⟩ [("A", []), ("B", [])] rfl
  exact h.trans (by decide)

/-- C4 counterexample: a post whose only media path carries the
unsupported extension constructor does not abort the run: the bracket
lookup finds the truthy inherited `Object.prototype` entry, the
`if (!mimeType) throw` check passes, and the publish call is made with
that inherited value as its media type, the run ending with no error. -/
theorem constructor_extension_publishes_counterexample :
    extensionOf "x.constructor" ∉ ["jpg", "jpeg", "png", "gif", "mp4"] ∧
    sendConfiguredTweets [⟨"A", some ["x.constructor"]⟩] ⟨2, 0⟩ =
      ([.publish "A" [⟨"x.constructor", .inheritedObject "constructor"⟩]],
        none) := by
  exact ⟨by decide, by decide⟩

/-- C4 (amended): a post of the working set whose media list contains a
path whose resolution fails — its lowercased extension gives a falsy
lookup, being neither one of the five supported extensions nor the name of
an inherited `Object.prototype` member — fails the run with the
unsupported-media error before the publish call of that post: exactly the
posts before it are published (they all resolved), the offending post and
every later post are never attempted, and the run ends with that error
rather than skipping and continuing. -/
theorem media_error_aborts_run (tweets : List TweetConfig)
    (opts : ScheduleOptions) (pre : List TweetConfig) (badT : TweetConfig)
    (rest : List TweetConfig) (ps : List (String × List MediaData))
    (e : String)
    (hws : tweetsToSend tweets opts.tweetCount = pre ++ badT :: rest)
    (hpre : resolveAll pre = .ok ps)
    (hbad : resolveMedia (badT.mediaPaths.getD []) = .error e) :
    (sendConfiguredTweets tweets opts).2 = some e ∧
    publishedContents (sendConfiguredTweets tweets opts).1 =
      ps.map Prod.fst ∧
    (publishedContents (sendConfiguredTweets tweets opts).1).length =
      pre.length := by
  simp only [sendConfiguredTweets, hws]
  have h := @sendLoop_stops_at_error (effectiveDelayMs opts.delayMinutes) e
    pre badT rest 0 ps hpre hbad
  refine ⟨h.1, h.2, ?_⟩
  rw [h.2, List.length_map]
  exact resolveAll_length hpre

theorem media_error_aborts_run_witness :
    (sendConfiguredTweets [⟨"A", none⟩, ⟨"B", some ["x.bmp"]⟩, ⟨"C", none⟩]
      ⟨2, 0⟩).2 = some "Unsupported media type for file: x.bmp" ∧
    publishedContents (sendConfiguredTweets
      [⟨"A", none⟩, ⟨"B", some ["x.bmp"]⟩, ⟨"C", none⟩] ⟨2, 0⟩).1 = ["A"] := by
  have h := media_error_aborts_run
    [⟨"A", none⟩, ⟨"B", some ["x.bmp"]⟩, ⟨"C", none⟩] ⟨2, 0⟩
    [⟨"A", none⟩] ⟨"B", some ["x.bmp"]⟩ [⟨"C", none⟩] [("A", [])]
    "Unsupported media type for file: x.bmp" rfl rfl rfl
  exact ⟨h.1, h.2.1.trans (by decide)⟩

/-- C5: the freshness check holds exactly when now − issuedAt is below the
configured max age, whose default is 24 hours in milliseconds; during
login a cached record that fails the check is never applied to the remote
client, and a fresh record that applies successfully completes
authentication with no credential login. -/
theorem cookie_freshness_gates_login (sc : StoredCookies)
    (now expMs : Int) (applyOk credOk : Bool) :
    (areCookiesValid now expMs sc = true ↔ now - sc.timestamp < expMs) ∧
    defaultCookieExpirationMs = 24 * 60 * 60 * 1000 ∧
    (areCookiesValid now expMs sc = false →
      (login (some sc) now expMs applyOk credOk).attemptedApply = false) ∧
    (areCookiesValid now expMs sc = true → applyOk = true →
      login (some sc) now expMs applyOk credOk =
        ⟨true, false, false, true⟩) := by
  refine ⟨decide_eq_true_iff, rfl, ?_, ?_⟩
  · intro h
    simp only [login, h]
    cases credOk <;> simp [credentialLoginStep]
  · intro h ha
    subst ha
    simp [login, h]

theorem cookie_freshness_gates_login_witness :
    (login (some ⟨["tok"], 0⟩) 90000000 86400000 true false).attemptedApply =
      false ∧
    login (some ⟨["tok"], 0⟩) 100 86400000 true false =
      ⟨true, false, false, true⟩ := by
  constructor
  · exact (cookie_freshness_gates_login ⟨["tok"], 0⟩ 90000000 86400000 true
      false).2.2.1 (by decide)
  · exact (cookie_freshness_gates_login ⟨["tok"], 0⟩ 100 86400000 true
      false).2.2.2 (by decide) rfl

/-- C6: loading the cached session never raises: every failing state of the
cache file (missing, unreadable, unparseable content) yields the absent
value, and login on an absent record takes the credential path without
attempting to apply a cached record. -/
theorem load_cookies_soft_failure (st : CookieFileState)
    (now expMs : Int) (applyOk credOk : Bool) :
    ((st = .missing ∨ st = .unreadable ∨ ∃ raw, st = .corrupt raw) →
      loadCookies st = none) ∧
    (loadCookies st = none →
      (login (loadCookies st) now expMs applyOk credOk).credentialLogin =
        true ∧
      (login (loadCookies st) now expMs applyOk credOk).attemptedApply =
        false) := by
  constructor
  · rintro (rfl | rfl | ⟨raw, rfl⟩) <;> rfl
  · intro h
    rw [h]
    cases credOk <;> simp [login, credentialLoginStep]

theorem load_cookies_soft_failure_witness :
    loadCookies (.corrupt "not json") = none ∧
    (login (loadCookies (.corrupt "not json")) 0 86400000 true
      true).credentialLogin = true := by
  constructor
  · exact (load_cookies_soft_failure (.corrupt "not json") 0 86400000 true
      true).1 (Or.inr (Or.inr ⟨"not json", rfl⟩))
  · exact ((load_cookies_soft_failure (.corrupt "not json") 0 86400000 true
      true).2 rfl).1

/-- C10: persisting the session writes a record whose timestamp is the
write time, fully replacing any previous cache file state, and the freshly
written record passes the freshness check for every positive max age when
evaluated at the write time. -/
theorem save_cookies_fresh_overwrite (cookies : List String) (now : Int)
    (prev : CookieFileState) (maxAgeMs : Int) (h : 0 < maxAgeMs) :
    (saveCookies cookies now prev).1 = ⟨cookies, now⟩ ∧
    (saveCookies cookies now prev).2 = .valid ⟨cookies, now⟩ ∧
    loadCookies (saveCookies cookies now prev).2 = some ⟨cookies, now⟩ ∧
    areCookiesValid now maxAgeMs (saveCookies cookies now prev).1 = true := by
  refine ⟨rfl, rfl, rfl, ?_⟩
  simp only [saveCookies, areCookiesValid, decide_eq_true_iff]
  omega

theorem save_cookies_fresh_overwrite_witness :
    (saveCookies ["a"] 5 .missing).2 = .valid ⟨["a"], 5⟩ ∧
    areCookiesValid 5 1 (saveCookies ["a"] 5 .missing).1 = true := by
  have h := save_cookies_fresh_overwrite ["a"] 5 .missing 1 (by decide)
  exact ⟨h.2.1, h.2.2.2⟩

/-- The lookup yields an own string entry exactly on the five supported
extension/type pairs. -/
lemma getMimeType_eq_str_iff (e m : String) :
    getMimeType (some e) = .str m ↔
      (e, m) ∈ [("jpg", "image/jpeg"), ("jpeg", "image/jpeg"),
        ("png", "image/png"), ("gif", "image/gif"), ("mp4", "video/mp4")] := by
  constructor
  · intro h
    simp only [getMimeType, mimeTypes] at h
    split_ifs at h with h0 h1 h2 h3 h4 h5 h6 <;> simp_all
  · intro h
    simp only [List.mem_cons, List.not_mem_nil, or_false] at h
    rcases h with h | h | h | h | h <;>
      (rw [Prod.ext_iff] at h; obtain ⟨rfl, rfl⟩ := h; rfl)

/-- The lookup is truthy exactly on the five supported extensions and the
inherited `Object.prototype` keys. -/
lemma getMimeType_isTruthy_iff (e : String) :
    (getMimeType (some e)).isTruthy = true ↔
      e ∈ ["jpg", "jpeg", "png", "gif", "mp4"] ∨
        e ∈ objectPrototypeKeys := by
  simp only [getMimeType, mimeTypes]
  split_ifs with h0 h1 h2 h3 h4 h5 h6
  · subst h0; decide
  · subst h1; decide
  · subst h2; decide
  · subst h3; decide
  · subst h4; decide
  · subst h5; decide
  · simp [JsValue.isTruthy, h6]
  · simp only [JsValue.isTruthy, Bool.false_eq_true, false_iff]
    push_neg
    refine ⟨?_, h6⟩
    simp only [List.mem_cons, List.not_mem_nil, or_false]
    rintro (rfl | rfl | rfl | rfl | rfl)
    · exact h1 rfl
    · exact h2 rfl
    · exact h3 rfl
    · exact h4 rfl
    · exact h5 rfl

/-- A one-path media list resolves exactly when the lookup on its
extension is truthy. -/
lemma resolveMedia_singleton_isOk_iff (path : String) :
    (resolveMedia [path]).toOption.isSome = true ↔
      (getMimeType (some (extensionOf path))).isTruthy = true := by
  simp only [resolveMedia]
  split_ifs with h
  · simp [Except.toOption, h]
  · simp [Except.toOption, h]

/-- C9 counterexample: the extension constructor is not one of the five
supported extensions, yet its lookup does not come back undefined: the
inherited `Object.prototype` entry is returned and it is truthy, so the
mapping is not undefined on every other extension. -/
theorem mime_constructor_truthy_counterexample :
    "constructor" ∉ ["jpg", "jpeg", "png", "gif", "mp4"] ∧
    getMimeType (some "constructor") = .inheritedObject "constructor" ∧
    (getMimeType (some "constructor")).isTruthy = true := by
  exact ⟨by decide, rfl, rfl⟩

/-- C9 (amended): the mapping has exactly jpg, jpeg, png, gif and mp4 as
its own entries (image/jpeg, image/jpeg, image/png, image/gif, video/mp4);
every other extension looks up as undefined unless it names an inherited
`Object.prototype` member, in which case the lookup returns that truthy
inherited value instead; the extension of a media path is the substring
after its last dot, lowercased before lookup, so a single-path media list
resolves exactly when that lowercased extension is one of the five
supported ones (uppercase spellings included) or an inherited key. -/
theorem mime_mapping_own_and_inherited (e m path : String) :
    (getMimeType (some e) = .str m ↔
      (e, m) ∈ [("jpg", "image/jpeg"), ("jpeg", "image/jpeg"),
        ("png", "image/png"), ("gif", "image/gif"), ("mp4", "video/mp4")]) ∧
    (e ∉ ["jpg", "jpeg", "png", "gif", "mp4"] → e ∉ objectPrototypeKeys →
      getMimeType (some e) = .undefined) ∧
    (e ∈ objectPrototypeKeys → getMimeType (some e) = .inheritedObject e) ∧
    ((resolveMedia [path]).toOption.isSome = true ↔
      extensionOf path ∈ ["jpg", "jpeg", "png", "gif", "mp4"] ∨
        extensionOf path ∈ objectPrototypeKeys) := by
  refine ⟨getMimeType_eq_str_iff e m, ?_, ?_, ?_⟩
  · intro hfive hproto
    simp only [getMimeType, mimeTypes]
    split_ifs with h0 h1 h2 h3 h4 h5
    · rfl
    · subst h1; exact absurd (by decide) hfive
    · subst h2; exact absurd (by decide) hfive
    · subst h3; exact absurd (by decide) hfive
    · subst h4; exact absurd (by decide) hfive
    · subst h5; exact absurd (by decide) hfive
    · rfl
  · intro hproto
    simp only [getMimeType, mimeTypes]
    split_ifs with h0 h1 h2 h3 h4 h5
    · subst h0; exact absurd hproto (by decide)
    · subst h1; exact absurd hproto (by decide)
    · subst h2; exact absurd hproto (by decide)
    · subst h3; exact absurd hproto (by decide)
    · subst h4; exact absurd hproto (by decide)
    · subst h5; exact absurd hproto (by decide)
    · rfl
  · rw [resolveMedia_singleton_isOk_iff, getMimeType_isTruthy_iff]

theorem mime_mapping_own_and_inherited_witness :
    getMimeType (some "bmp") = .undefined ∧
    getMimeType (some "__proto__") = .inheritedObject "__proto__" ∧
    (resolveMedia ["photo.PNG"]).toOption.isSome = true := by
  refine ⟨?_, ?_, ?_⟩
  · exact (mime_mapping_own_and_inherited "bmp" "" "").2.1 (by decide)
      (by decide)
  · exact (mime_mapping_own_and_inherited "__proto__" "" "").2.2.1
      (by decide)
  · exact (mime_mapping_own_and_inherited "" "" "photo.PNG").2.2.2.mpr
      (Or.inl (by decide))

/-- The notion used by the spec, for C7, of a string that denotes a
positive integer:
nonempty, digits only (no sign, no fractional part), value at least 1. -/
def denotesPositiveInteger (s : String) : Bool :=
  (!s.data.isEmpty) && s.data.all Char.isDigit &&
    decide (1 ≤ s.data.foldl (fun n c => n * 10 + (c.toNat - 48)) 0)

/-- C7 counterexample: the explicit count argument "3.5" does not denote a
positive integer (it is fractional), yet argument parsing accepts it — JS
parseInt truncates it to 3 — so parsing does not accept only positive
integers. -/
theorem count_accepts_fractional_counterexample :
    denotesPositiveInteger "3.5" = false ∧
    parseArgs ["--count", "3.5"] = .ok ⟨2, 3⟩ :=
  ⟨rfl, rfl⟩

/-- C7 (amended): an explicit count is accepted exactly when JS parseInt
yields a value of at least 1 on it — so a string with a fractional suffix,
such as "3.5", is accepted with the value truncated to its leading integer
part, and a 0x-prefixed hexadecimal string is accepted at its hexadecimal
value; a count whose parseInt value is NaN or below 1 is rejected with the
count error, an invalid delay format is rejected with the time-format
error, and a parse error aborts the run before authentication: the main
routine stops with that error, with no login step. -/
theorem arg_validation_before_auth (d c : Int) (s t : String)
    (rest args : List String) (st : CookieFileState) (now expMs : Int)
    (applyOk credOk : Bool) (tweets : List TweetConfig) (e : String) :
    (jsParseInt s = none →
      parseArgsLoop ("--count" :: s :: rest) d c =
        .error "Count must be a positive number") ∧
    (∀ k, jsParseInt s = some k → k < 1 →
      parseArgsLoop ("--count" :: s :: rest) d c =
        .error "Count must be a positive number") ∧
    (∀ k, jsParseInt s = some k → 1 ≤ k →
      parseArgsLoop ("--count" :: s :: rest) d c = parseArgsLoop rest d k) ∧
    (parseTimeString t = .error e →
      parseArgsLoop ("--delay" :: t :: rest) d c = .error e) ∧
    (parseArgs args = .error e →
      mainModel args st now expMs applyOk credOk tweets = ([], some e)) := by
  refine ⟨?_, ?_, ?_, ?_, ?_⟩
  · intro h
    simp [parseArgsLoop, h]
  · intro k hk hlt
    simp [parseArgsLoop, hk, hlt]
  · intro k hk hle
    simp [parseArgsLoop, hk, not_lt.mpr hle]
  · intro h
    simp [parseArgsLoop, h]
  · intro h
    simp [mainModel, h]

theorem arg_validation_before_auth_witness :
    parseArgsLoop ["--count", "abc"] 2 0 =
      .error "Count must be a positive number" ∧
    parseArgsLoop ["--count", "0"] 2 0 =
      .error "Count must be a positive number" ∧
    parseArgsLoop ["--count", "4"] 2 0 = parseArgsLoop [] 2 4 ∧
    parseArgsLoop ["--count", "0x5"] 2 0 = parseArgsLoop [] 2 5 ∧
    parseArgsLoop ["--delay", "5x"] 2 0 =
      .error "Invalid time format. Use format: \"5min\" or just \"5\"" ∧
    mainModel ["--count", "0"] .missing 0 86400000 true true [] =
      ([], some "Count must be a positive number") := by
  refine ⟨?_, ?_, ?_, ?_, ?_, ?_⟩
  · exact (arg_validation_before_auth 2 0 "abc" "" [] [] .missing 0 0 true
      true [] "").1 rfl
  · exact (arg_validation_before_auth 2 0 "0" "" [] [] .missing 0 0 true
      true [] "").2.1 0 rfl (by decide)
  · exact (arg_validation_before_auth 2 0 "4" "" [] [] .missing 0 0 true
      true [] "").2.2.1 4 rfl (by decide)
  · exact (arg_validation_before_auth 2 0 "0x5" "" [] [] .missing 0 0 true
      true [] "").2.2.1 5 rfl (by decide)
  · exact (arg_validation_before_auth 2 0 "" "5x" [] [] .missing 0 0 true
      true [] "Invalid time format. Use format: \"5min\" or just \"5\"").2.2.2.1
      rfl
  · exact (arg_validation_before_auth 2 0 "" "" [] ["--count", "0"] .missing
      0 86400000 true true [] "Count must be a positive number").2.2.2.2 rfl

/-- Resolution pairs each tweet with its own content, in order. -/
lemma resolveAll_map_fst :
    ∀ {ts : List TweetConfig} {ps : List (String × List MediaData)},
      resolveAll ts = .ok ps →
      ps.map Prod.fst = ts.map TweetConfig.content := by
  intro ts
  induction ts with
  | nil => intro ps h; cases h; rfl
  | cons t rest ih =>
    intro ps h
    simp only [resolveAll] at h
    rcases hmd : resolveMedia (t.mediaPaths.getD []) with e | md <;>
      rw [hmd] at h
    · cases h
    · rcases hra : resolveAll rest with e | tail <;> rw [hra] at h
      · cases h
      · cases h
        simp [ih hra]

/-- C8: a count strictly greater than the number of loaded posts does not
fail the run: truncation clamps at the list length, so the working set is
the entire list and (when the media of every post resolves) the run completes
with exactly one publish per loaded post, in order. -/
theorem count_beyond_length_clamps (tweets : List TweetConfig) (k d : Int)
    (ps : List (String × List MediaData))
    (hk : (tweets.length : Int) < k)
    (h : resolveAll tweets = .ok ps) :
    tweetsToSend tweets k = tweets ∧
    (sendConfiguredTweets tweets ⟨d, k⟩).2 = none ∧
    publishedContents (sendConfiguredTweets tweets ⟨d, k⟩).1 =
      tweets.map TweetConfig.content ∧
    (publishedContents (sendConfiguredTweets tweets ⟨d, k⟩).1).length =
      tweets.length := by
  have hws : tweetsToSend tweets k = tweets := by
    simp only [tweetsToSend]
    rw [if_pos (by omega)]
    exact List.take_of_length_le (by omega)
  have hrun : sendConfiguredTweets tweets ⟨d, k⟩ =
      (traceFrom (effectiveDelayMs d) true ps, none) := by
    simp only [sendConfiguredTweets]
    rw [hws]
    exact sendLoop_of_resolveAll_ok tweets 0 h
  refine ⟨hws, ?_, ?_, ?_⟩
  · rw [hrun]
  · rw [hrun]
    simp only [publishedContents_traceFrom]
    exact resolveAll_map_fst h
  · rw [hrun]
    simp only [publishedContents_traceFrom, List.length_map]
    exact resolveAll_length h

theorem count_beyond_length_clamps_witness :
    tweetsToSend [⟨"A", none⟩, ⟨"B", none⟩] 5 = [⟨"A", none⟩, ⟨"B", none⟩] ∧
    (sendConfiguredTweets [⟨"A", none⟩, ⟨"B", none⟩] ⟨2, 5⟩).2 = none ∧
    publishedContents
      (sendConfiguredTweets [⟨"A", none⟩, ⟨"B", none⟩] ⟨2, 5⟩).1 =
      ["A", "B"] := by
  have h := count_beyond_length_clamps [⟨"A", none⟩, ⟨"B", none⟩] 5 2
    [("A", []), ("B", [])] (by decide) rfl
  exact ⟨h.1, h.2.1, h.2.2.1.trans (by decide)⟩

end TweetTest
